import Mathlib

/-!
# Shallow embedding of the `task_flow` package

This file embeds the data model and operations of the `task_flow`
repository (files `src/task_flow/constants.py`, `step.py`, `task.py`,
`task_manager.py`) into Lean, and proves properties of the embedded
definitions.

Modelling conventions:
* Python `dict`s (which preserve insertion order) become association
  lists `List (String × α)`; assignment `d[k] = v` is insert-or-replace.
* JSON-serializable step payloads become the type `JValue`; the engine
  never inspects payloads, it only stores them.
* Timestamps and uuids are opaque strings supplied as parameters (the
  code obtains them from `datetime.now()` / `uuid.uuid4()`).
* Raising an exception becomes returning `Except.error` carrying the
  `str(e)` message; catching becomes matching on the `Except`.
* The JSON codec is out of scope per the spec: a persisted file is either
  `invalidJson` (so `json.load` raises `JSONDecodeError`) or an already
  decoded `TaskRecord` matching the schema of `TaskResult.to_dict`.
* `execute` additionally returns the list of step names whose bodies were
  actually invoked, as a ghost observation of the run (it affects nothing).
-/

namespace TaskFlow

/-- JSON-like values used for step payloads (`StepResult.data`).
The engine treats payloads opaquely: it stores whatever the step body
returns and serializes it back verbatim. -/
inductive JValue where
  | null : JValue
  | bool (b : Bool) : JValue
  | num (n : Int) : JValue
  | str (s : String) : JValue
  | arr (xs : List JValue) : JValue
  | obj (kvs : List (String × JValue)) : JValue

/-- Embeds `constants.STATUS`: the closed four-value status enum. -/
inductive STATUS where
  | PENDING : STATUS
  | RUNNING : STATUS
  | SUCCESS : STATUS
  | ERROR : STATUS
  deriving DecidableEq, Repr

/-- Embeds `STATUS.value` — the string payload of each enum member. -/
def STATUS.value : STATUS → String
  | .PENDING => "PENDING"
  | .RUNNING => "RUNNING"
  | .SUCCESS => "SUCCESS"
  | .ERROR => "ERROR"

/-- Embeds `STATUS(s)` — the enum constructor-by-value; `none` models the
`ValueError` Python raises for a string that is not a member value. -/
def STATUS.ofString? : String → Option STATUS
  | "PENDING" => some .PENDING
  | "RUNNING" => some .RUNNING
  | "SUCCESS" => some .SUCCESS
  | "ERROR" => some .ERROR
  | _ => none

/-- Lookup in an insertion-ordered dict: `d[k]` as an `Option` (the
first entry whose key matches). -/
def dictGet : List (String × α) → String → Option α
  | [], _ => none
  | p :: rest, k => if p.1 = k then some p.2 else dictGet rest k

/-- Dict assignment `d[k] = v`: replace the existing entry in place, or
append a fresh one (Python dicts keep the original position on update). -/
def dictInsert (l : List (String × α)) (k : String) (v : α) : List (String × α) :=
  if l.any (fun p => p.1 = k) then
    l.map (fun p => if p.1 = k then (p.1, v) else p)
  else
    l ++ [(k, v)]

/-- In-place mutation of the entry at key `k`:
`d[k].field = ...` applied through a function on the stored value. -/
def updateStep (l : List (String × α)) (k : String) (f : α → α) : List (String × α) :=
  l.map (fun p => if p.1 = k then (p.1, f p.2) else p)

/-- Lexicographic comparison of char lists by code point: the
alphabetical order `dir()` sorts by. -/
def charListLe : List Char → List Char → Bool
  | [], _ => true
  | _ :: _, [] => false
  | a :: as, b :: bs =>
    if a.toNat < b.toNat then true
    else if b.toNat < a.toNat then false
    else charListLe as bs

/-- Alphabetical order on strings. -/
def strLe (a b : String) : Bool := charListLe a.data b.data

/-- Alphabetical insertion used by `sortNames`. -/
def insertSorted (a : String) : List String → List String
  | [] => [a]
  | b :: bs => if strLe a b then a :: b :: bs else b :: insertSorted a bs

/-- Alphabetical sort of attribute names: CPython's `dir()` is documented
to return its result sorted alphabetically. -/
def sortNames (l : List String) : List String :=
  l.foldr insertSorted []

/-- Embeds `str.endswith`, computed on the underlying char lists. -/
def strEndsWith (s suf : String) : Bool :=
  decide (suf.data.length ≤ s.data.length) &&
    decide (s.data.drop (s.data.length - suf.data.length) = suf.data)

/-- Embeds `os.path.join` for the two-argument uses in the code. -/
def joinPath (dir file : String) : String :=
  if strEndsWith dir "/" then dir ++ file else dir ++ "/" ++ file

/-- Embeds `os.path.basename`: the component after the final slash. -/
def basename (p : String) : String :=
  ⟨p.data.foldl (fun acc ch => if ch = '/' then [] else acc ++ [ch]) []⟩

/-- Embeds `str.removesuffix`, computed on the underlying char lists. -/
def removeSuffix (s suf : String) : String :=
  if strEndsWith s suf then ⟨s.data.take (s.data.length - suf.data.length)⟩ else s

/-- Embeds `str.split(".")[0]`: the characters before the first dot. -/
def splitDotHead (s : String) : String :=
  ⟨s.data.takeWhile (fun ch => ch ≠ '.')⟩

/-- Embeds `step.StepResult`: message, status and payload of one step.
Defaults are those of the dataclass: `""`, `PENDING`, `{}`. -/
structure StepResult where
  message : String := ""
  status : STATUS := STATUS.PENDING
  data : JValue := JValue.obj []

/-- The wire form of one step inside the persisted record: the output
shape of `StepResult.to_dict` (status as a raw string). -/
structure StepRecord where
  message : String
  status : String
  data : JValue

/-- Embeds `StepResult.to_dict`. -/
def StepResult.to_dict (s : StepResult) : StepRecord :=
  { message := s.message, status := s.status.value, data := s.data }

/-- Embeds `StepResult(**record)` followed by `__post_init__`: the status string
is coerced through `STATUS(...)`, which raises `ValueError` on a string
outside the four member values. -/
def StepResult.ofRecord (r : StepRecord) : Except String StepResult :=
  match STATUS.ofString? r.status with
  | some st => Except.ok { message := r.message, status := st, data := r.data }
  | none => Except.error (r.status ++ " is not a valid STATUS")

/-- Embeds `task.TaskResult`: the per-task result record. `data` maps step name
to `StepResult` in insertion order. -/
structure TaskResult where
  task_type : Option String := none
  status : STATUS := STATUS.PENDING
  exit_message : Option String := none
  data : List (String × StepResult) := []
  created_at : String
  start_at : Option String := none
  end_at : Option String := none
  artifacts : List (String × String) := []

/-- Embeds `TaskResult.exit_code`: 1 when `data` is empty, 1 when every step's
status is `ERROR`, else 0. -/
def TaskResult.exit_code (r : TaskResult) : Nat :=
  if r.data.length = 0 then 1
  else if r.data.all (fun p => p.2.status = STATUS.ERROR) then 1 else 0

/-- The wire form of the persisted record: the output shape of
`TaskResult.to_dict` (the `duration` field, derived from the timestamps
and ignored by the loader, is not modelled). -/
structure TaskRecord where
  task_type : Option String
  status : String
  exit_code : Nat
  exit_message : Option String
  data : List (String × StepRecord)
  created_at : String
  start_at : Option String
  end_at : Option String
  artifacts : List (String × String)

/-- Embeds `TaskResult.to_dict`. -/
def TaskResult.to_dict (r : TaskResult) : TaskRecord :=
  { task_type := r.task_type,
    status := r.status.value,
    exit_code := r.exit_code,
    exit_message := r.exit_message,
    data := r.data.map (fun p => (p.1, p.2.to_dict)),
    created_at := r.created_at,
    start_at := r.start_at,
    end_at := r.end_at,
    artifacts := r.artifacts }

/-- One member of a concrete `Task` subclass body, in declaration order;
`is_step` records whether the `@step` decorator tagged it. -/
structure Member where
  name : String
  is_step : Bool
  deriving DecidableEq, Repr

/-- Step discovery from `Task.__init__`:
`[m for m in dir(self) if ... hasattr(getattr(self, m), "is_step")]`.
`dir(self)` yields the member names sorted alphabetically (a class
namespace holds each name once), and the comprehension keeps those
tagged by the decorator. -/
def discoverSteps (members : List Member) : List String :=
  (sortNames (members.map Member.name)).filter
    (fun n => members.any (fun m => m.name = n && m.is_step))

/-- Embeds `task.Task`: identity, executable flag, discovered step names, and
the owned `TaskResult`. -/
structure Task where
  task_id : String
  is_executable : Bool
  steps : List String
  result : TaskResult

/-- Embeds `Task.__init__` for a concrete subclass: fresh identity (supplied),
step discovery, one `PENDING` `StepResult` per discovered step,
`task_type` = the class name. -/
def Task.init (task_type : String) (members : List Member)
    (task_id created_at : String) : Task :=
  let steps := discoverSteps members
  { task_id := task_id,
    is_executable := true,
    steps := steps,
    result :=
      { task_type := some task_type,
        status := STATUS.PENDING,
        exit_message := none,
        data := steps.map (fun s => (s, ({} : StepResult))),
        created_at := created_at,
        start_at := none,
        end_at := none,
        artifacts := [] } }

/-- Embeds `Task.load_from_file` after the `json.load`: rebuild the `Task` from
the decoded record. Following Python's argument evaluation order the
task-level `STATUS(...)` coercion runs before the per-step
`StepResult(**...)` reconstructions; any coercion failure propagates as
`ValueError`. The rebuilt task has `is_executable = False` and the empty
step list the plain `Task()` constructor discovers. -/
def Task.load_from_record (fileName : String) (rec : TaskRecord) :
    Except String Task := do
  let status ←
    match STATUS.ofString? rec.status with
    | some st => Except.ok st
    | none => Except.error (rec.status ++ " is not a valid STATUS")
  let stepData ← rec.data.mapM (fun p => do
    let sr ← StepResult.ofRecord p.2
    pure (p.1, sr))
  pure
    { task_id := removeSuffix fileName ".json",
      is_executable := false,
      steps := [],
      result :=
        { task_type := rec.task_type,
          status := status,
          exit_message := rec.exit_message,
          data := stepData,
          created_at := rec.created_at,
          start_at := rec.start_at,
          end_at := rec.end_at,
          artifacts := rec.artifacts } }

/-- Embeds `Task._execute_step`: mark the step `RUNNING`, invoke the body; on
normal return store the payload and mark `SUCCESS`; on a raise mark
`ERROR` and re-raise (returned as `some message`). -/
def Task._execute_step (t : Task) (step_name : String)
    (body : Except String JValue) : Task × Option String :=
  let d0 := updateStep t.result.data step_name (fun s => { s with status := STATUS.RUNNING })
  let t1 : Task := { t with result := { t.result with data := d0 } }
  match body with
  | Except.ok v =>
      let d2 := updateStep t1.result.data step_name
        (fun s => { s with data := v, status := STATUS.SUCCESS })
      ({ t1 with result := { t1.result with data := d2 } }, none)
  | Except.error e =>
      let d2 := updateStep t1.result.data step_name
        (fun s => { s with status := STATUS.ERROR })
      ({ t1 with result := { t1.result with data := d2 } }, some e)

/-- The `for step_name in self.steps` loop of `execute`, stopping at the
first step whose body raises. Also returns the raised message (if any)
and the ghost trace of step names whose bodies were invoked. -/
def runSteps (bodies : String → Except String JValue) :
    Task → List String → Task × Option String × List String
  | t, [] => (t, none, [])
  | t, s :: rest =>
    match Task._execute_step t s (bodies s) with
    | (t', none) =>
        let out := runSteps bodies t' rest
        (out.1, out.2.1, s :: out.2.2)
    | (t', some e) => (t', some e, [s])

/-- Embeds `Task.execute`: guard on `is_executable`, transition to `RUNNING`,
raise "No steps to execute" on an empty step list, otherwise run the
steps in order; on any failure record `exit_message` and `ERROR`, else
`SUCCESS`; stamp `end_at`; persist (pure here) and return the serialized
record. The third component is the ghost trace of invoked steps. -/
def Task.execute (t : Task) (bodies : String → Except String JValue)
    (startTime endTime : String) :
    Except String (Task × TaskRecord × List String) :=
  if t.is_executable = false then Except.error "Task is not executable"
  else
    let t1 : Task :=
      { t with result :=
          { t.result with status := STATUS.RUNNING, start_at := some startTime } }
    let out :=
      if t1.steps.isEmpty then (t1, some "No steps to execute", [])
      else runSteps bodies t1 t1.steps
    let t3 : Task :=
      match out.2.1 with
      | some e =>
          { out.1 with result :=
              { out.1.result with exit_message := some e, status := STATUS.ERROR } }
      | none =>
          { out.1 with result :=
              { out.1.result with status := STATUS.SUCCESS } }
    let t4 : Task :=
      { t3 with result := { t3.result with end_at := some endTime } }
    Except.ok (t4, t4.result.to_dict, out.2.2)

/-- Embeds `Task.add_artifact`: the filesystem is the list `fs` of existing file
paths. `os.rename` raises `FileNotFoundError` when the source is absent,
in which case the method aborts before touching `artifacts`; on success
the file moves to `<artifact_path>/<task_id>_<basename>` and the mapping
gains `basename ↦ new path`. Returns (task after the call, outcome,
filesystem after the call). -/
def Task.add_artifact (t : Task) (fs : List String)
    (path : String) (artifact_path : String) :
    Task × Except String Unit × List String :=
  let new_path := joinPath artifact_path (t.task_id ++ "_" ++ basename path)
  if path ∈ fs then
    let arts := dictInsert t.result.artifacts (basename path) new_path
    ({ t with result := { t.result with artifacts := arts } },
     Except.ok (), fs.erase path ++ [new_path])
  else
    (t, Except.error ("No such file or directory: " ++ path), fs)

/-- Embeds `Task.save_result`: serialize the current result to
`<task_id>.json`; returns the file's basename and decoded content. -/
def Task.save_result (t : Task) : String × TaskRecord :=
  (t.task_id ++ ".json", t.result.to_dict)

/-- A persisted file as seen by `load_from_file`: either `json.load`
raises `JSONDecodeError`, or it yields a record of the schema. -/
inductive FileContent where
  | invalidJson : FileContent
  | record (rec : TaskRecord) : FileContent

/-- The failure modes of `Task.load_from_file`. -/
inductive LoadError where
  | jsonDecode : LoadError
  | valueError (msg : String) : LoadError
  deriving DecidableEq, Repr

/-- Embeds `Task.load_from_file` on a file with the given basename and content:
`json.load` first (possibly `JSONDecodeError`), then the reconstruction
of `Task.load_from_record` (possibly `ValueError`). -/
def Task.load_from_file (fileName : String) (content : FileContent) :
    Except LoadError Task :=
  match content with
  | FileContent.invalidJson => Except.error LoadError.jsonDecode
  | FileContent.record rec =>
    match Task.load_from_record fileName rec with
    | Except.ok t => Except.ok t
    | Except.error msg => Except.error (LoadError.valueError msg)

/-- Embeds `TaskManager.load_from_disk`: iterate the result directory's entries;
`try: load_from_file ... except JSONDecodeError: log` — only the JSON
decode failure is caught (the entry is skipped), any other exception
escapes the loop and aborts the scan. On success the registry gains
`file.split(".")[0] ↦ task`. -/
def TaskManager.load_from_disk :
    List (String × FileContent) → List (String × Task) →
    Except LoadError (List (String × Task))
  | [], tasks => Except.ok tasks
  | (fileName, content) :: rest, tasks =>
    match Task.load_from_file fileName content with
    | Except.ok task =>
        TaskManager.load_from_disk rest
          (dictInsert tasks (splitDotHead fileName) task)
    | Except.error LoadError.jsonDecode =>
        TaskManager.load_from_disk rest tasks
    | Except.error e => Except.error e

/-- The response of `get_task_status`: the result record plus the log
lines. -/
structure StatusResponse where
  record : TaskRecord
  logs : List String

/-- Embeds `TaskManager.get_task_status`: raise for an unregistered id;
otherwise return the result snapshot with the lines of
`<logs_folder_path>/<task_id>.log` when that path was given and the file
exists, else an empty list. `logFiles` maps existing log file paths to
their `readlines()` content. -/
def TaskManager.get_task_status (tasks : List (String × Task))
    (logFiles : List (String × List String))
    (task_id : String) (logs_folder_path : Option String) :
    Except String StatusResponse :=
  match dictGet tasks task_id with
  | none => Except.error ("Task " ++ task_id ++ " not found")
  | some task =>
    let logs_task : List String :=
      match logs_folder_path with
      | none => []
      | some dir =>
        match dictGet logFiles (joinPath dir (task_id ++ ".log")) with
        | some lines => lines
        | none => []
    Except.ok { record := task.result.to_dict, logs := logs_task }

/-! ## Basic lemmas about the dict operations -/

theorem dictGet_updateStep_self (l : List (String × α)) (k : String) (f : α → α) :
    dictGet (updateStep l k f) k = (dictGet l k).map f := by
  induction l with
  | nil => rfl
  | cons p rest ih =>
    by_cases h : p.1 = k
    · simp [dictGet, updateStep, h]
    · simpa [dictGet, updateStep, h] using ih

theorem dictGet_updateStep_ne (l : List (String × α)) (k n : String) (f : α → α)
    (h : n ≠ k) :
    dictGet (updateStep l k f) n = dictGet l n := by
  induction l with
  | nil => rfl
  | cons p rest ih =>
    by_cases hp : p.1 = k
    · have hpn : ¬ p.1 = n := fun hh => h (hh.symm.trans hp)
      simpa [dictGet, updateStep, hp, hpn, Ne.symm h] using ih
    · by_cases hpn : p.1 = n
      · simp [dictGet, updateStep, hp, hpn, h]
      · simpa [dictGet, updateStep, hp, hpn, h] using ih

theorem updateStep_updateStep (l : List (String × α)) (k : String) (f g : α → α) :
    updateStep (updateStep l k f) k g = updateStep l k (fun x => g (f x)) := by
  induction l with
  | nil => rfl
  | cons p rest ih =>
    by_cases h : p.1 = k
    · simp only [updateStep, List.map_cons] at ih ⊢
      rw [if_pos h]
      have hfst : ((p.1, f p.2) : String × α).1 = k := h
      rw [if_pos hfst, if_pos h]
      exact congrArg _ ih
    · simp only [updateStep, List.map_cons] at ih ⊢
      rw [if_neg h, if_neg h, if_neg h]
      exact congrArg _ ih

theorem dictGet_map_const (l : List String) (n : String) (v : α) (hn : n ∈ l) :
    dictGet (l.map (fun s => (s, v))) n = some v := by
  induction l with
  | nil => cases hn
  | cons s rest ih =>
    by_cases h : s = n
    · simp [dictGet, h]
    · have hmem : n ∈ rest := by
        cases hn with
        | head => exact absurd rfl h
        | tail _ hmem => exact hmem
      simpa [dictGet, h] using ih hmem

/-! ## Normal forms of `_execute_step` -/

/-- The net effect of a successful `_execute_step` on the task: the
`RUNNING` mark followed by the `SUCCESS` mark and payload store. -/
def stepSuccess (t : Task) (s : String) (v : JValue) : Task :=
  let d := updateStep t.result.data s (fun r => { r with status := STATUS.SUCCESS, data := v })
  { t with result := { t.result with data := d } }

/-- The net effect of a failing `_execute_step` on the task: the
`RUNNING` mark followed by the `ERROR` mark. -/
def stepFailure (t : Task) (s : String) : Task :=
  let d := updateStep t.result.data s (fun r => { r with status := STATUS.ERROR })
  { t with result := { t.result with data := d } }

theorem execStep_ok_eq (t : Task) (s : String) (v : JValue) :
    Task._execute_step t s (Except.ok v) = (stepSuccess t s v, none) := by
  simp only [Task._execute_step, stepSuccess, updateStep_updateStep]

theorem execStep_err_eq (t : Task) (s : String) (e : String) :
    Task._execute_step t s (Except.error e) = (stepFailure t s, some e) := by
  simp only [Task._execute_step, stepFailure, updateStep_updateStep]

theorem runSteps_nil (bodies : String → Except String JValue) (t : Task) :
    runSteps bodies t [] = (t, none, []) := rfl

theorem runSteps_cons_ok (bodies : String → Except String JValue) (t : Task)
    (s : String) (rest : List String) (v : JValue) (h : bodies s = Except.ok v) :
    runSteps bodies t (s :: rest) =
      ((runSteps bodies (stepSuccess t s v) rest).1,
       (runSteps bodies (stepSuccess t s v) rest).2.1,
       s :: (runSteps bodies (stepSuccess t s v) rest).2.2) := by
  simp [runSteps, h, execStep_ok_eq]

theorem runSteps_cons_err (bodies : String → Except String JValue) (t : Task)
    (s : String) (rest : List String) (e : String) (h : bodies s = Except.error e) :
    runSteps bodies t (s :: rest) = (stepFailure t s, some e, [s]) := by
  simp [runSteps, h, execStep_err_eq]

/-! ## Characterization of a run that fails at one step -/

/-- Running `pre ++ s :: post` where every body in `pre` succeeds and the
body of `s` raises: the raised message propagates, exactly `pre ++ [s]`
get invoked, entries outside `pre` and `s` keep their `StepResult`,
entries of `pre` turn `SUCCESS` with their payloads, and `s` turns
`ERROR` with its other fields untouched. -/
theorem runSteps_fail_spec (bodies : String → Except String JValue) (s e : String)
    (hfail : bodies s = Except.error e) :
    ∀ (pre : List String), ∀ (post : List String) (t : Task),
      (∀ m ∈ pre, ∃ v, bodies m = Except.ok v) →
      s ∉ pre → pre.Nodup →
      (runSteps bodies t (pre ++ s :: post)).2.1 = some e ∧
      (runSteps bodies t (pre ++ s :: post)).2.2 = pre ++ [s] ∧
      (∀ n, n ∉ pre → n ≠ s →
        dictGet (runSteps bodies t (pre ++ s :: post)).1.result.data n =
          dictGet t.result.data n) ∧
      (∀ m ∈ pre, ∀ v, bodies m = Except.ok v →
        dictGet (runSteps bodies t (pre ++ s :: post)).1.result.data m =
          (dictGet t.result.data m).map
            (fun r => { r with status := STATUS.SUCCESS, data := v })) ∧
      dictGet (runSteps bodies t (pre ++ s :: post)).1.result.data s =
        (dictGet t.result.data s).map (fun r => { r with status := STATUS.ERROR }) := by
  intro pre
  induction pre with
  | nil =>
    intro post t _ _ _
    rw [List.nil_append, runSteps_cons_err bodies t s post e hfail]
    refine ⟨rfl, rfl, ?_, ?_, ?_⟩
    · intro n _ hns
      simpa [stepFailure] using dictGet_updateStep_ne t.result.data s n _ hns
    · intro m hm
      cases hm
    · simpa [stepFailure] using dictGet_updateStep_self t.result.data s _
  | cons p pre ih =>
    intro post t hpre hs hnd
    obtain ⟨v, hv⟩ := hpre p (List.mem_cons_self p pre)
    have hps : p ≠ s := by
      rintro rfl
      exact hs (List.mem_cons_self p pre)
    have hpre' : ∀ m ∈ pre, ∃ w, bodies m = Except.ok w :=
      fun m hm => hpre m (List.mem_cons_of_mem p hm)
    have hs' : s ∉ pre := fun hmem => hs (List.mem_cons_of_mem p hmem)
    have hpnotpre : p ∉ pre := (List.nodup_cons.mp hnd).1
    have hnd' : pre.Nodup := (List.nodup_cons.mp hnd).2
    have hcons : (p :: pre) ++ s :: post = p :: (pre ++ s :: post) := rfl
    rw [hcons, runSteps_cons_ok bodies t p (pre ++ s :: post) v hv]
    obtain ⟨h1, h2, h3, h4, h5⟩ := ih post (stepSuccess t p v) hpre' hs' hnd'
    refine ⟨h1, ?_, ?_, ?_, ?_⟩
    · rw [h2]
      rfl
    · intro n hn hns
      have hnp : n ≠ p := by
        rintro rfl
        exact hn (List.mem_cons_self n pre)
      rw [h3 n (fun hmem => hn (List.mem_cons_of_mem p hmem)) hns]
      simpa [stepSuccess] using dictGet_updateStep_ne t.result.data p n _ hnp
    · intro m hm w hw
      rcases List.mem_cons.mp hm with rfl | hmtail
      · rw [h3 m hpnotpre hps]
        rw [hv] at hw
        have hvw : v = w := Except.ok.inj hw
        subst hvw
        simpa [stepSuccess] using dictGet_updateStep_self t.result.data m _
      · have hmp : m ≠ p := by
          rintro rfl
          exact hpnotpre hmtail
        rw [h4 m hmtail w hw]
        have := dictGet_updateStep_ne t.result.data p m
          (fun r => { r with status := STATUS.SUCCESS, data := v }) hmp
        simp only [stepSuccess] at *
        rw [this]
    · rw [h5]
      have := dictGet_updateStep_ne t.result.data p s
        (fun r => { r with status := STATUS.SUCCESS, data := v }) (Ne.symm hps)
      simp only [stepSuccess] at *
      rw [this]

/-! ## Equations for `execute` -/

/-- Restates `Task.init` in constructor form. -/
theorem init_eq (ty : String) (members : List Member) (uid c : String) :
    Task.init ty members uid c =
      ⟨uid, true, discoverSteps members,
       { task_type := some ty, status := STATUS.PENDING, exit_message := none,
         data := (discoverSteps members).map (fun s => (s, ({} : StepResult))),
         created_at := c, start_at := none, end_at := none, artifacts := [] }⟩ := rfl

/-- Runs `execute` on an executable task with no steps: the internal
"No steps to execute" failure is recorded. -/
theorem execute_empty_eq (tid : String) (res : TaskResult)
    (bodies : String → Except String JValue) (st en : String) :
    Task.execute ⟨tid, true, [], res⟩ bodies st en = Except.ok
      (⟨tid, true, [],
        { res with status := STATUS.ERROR,
                   exit_message := some "No steps to execute",
                   start_at := some st, end_at := some en }⟩,
       TaskResult.to_dict
        { res with status := STATUS.ERROR,
                   exit_message := some "No steps to execute",
                   start_at := some st, end_at := some en },
       []) := by
  simp [Task.execute]

/-- Runs `execute` on an executable task whose run raises `e`. -/
theorem execute_err_eq (tid : String) (steps : List String) (res : TaskResult)
    (bodies : String → Except String JValue) (st en : String)
    (t2 : Task) (e : String) (tr : List String)
    (hne : steps.isEmpty = false)
    (hrun : runSteps bodies
        ⟨tid, true, steps, { res with status := STATUS.RUNNING, start_at := some st }⟩
        steps = (t2, some e, tr)) :
    Task.execute ⟨tid, true, steps, res⟩ bodies st en = Except.ok
      ({ t2 with result :=
          { t2.result with exit_message := some e, status := STATUS.ERROR,
                           end_at := some en } },
       TaskResult.to_dict
        { t2.result with exit_message := some e, status := STATUS.ERROR,
                         end_at := some en },
       tr) := by
  simp [Task.execute, hne, hrun]

/-! ## Serialization round trip -/

theorem except_ok_bind (a : α) (f : α → Except ε β) :
    (Except.ok a : Except ε α) >>= f = f a := rfl

theorem except_error_bind (e : ε) (f : α → Except ε β) :
    (Except.error e : Except ε α) >>= f = Except.error e := rfl

theorem ofString?_value (st : STATUS) : STATUS.ofString? st.value = some st := by
  cases st <;> rfl

theorem ofRecord_to_dict (sr : StepResult) :
    StepResult.ofRecord sr.to_dict = Except.ok sr := by
  simp [StepResult.ofRecord, StepResult.to_dict, ofString?_value]

theorem mapM_ofRecord_to_dict (l : List (String × StepResult)) :
    (l.map (fun p => (p.1, p.2.to_dict))).mapM
      (fun p => do
        let sr ← StepResult.ofRecord p.2
        pure (p.1, sr)) = Except.ok l := by
  induction l with
  | nil => rfl
  | cons x xs ih =>
    simp only [List.map_cons, List.mapM_cons, ofRecord_to_dict, except_ok_bind, ih]
    rfl

/-- Reloading a saved result restores the identity (suffix stripped), the
non-executable flag, and the whole `TaskResult` verbatim. -/
theorem load_save (t : Task) :
    Task.load_from_record (t.save_result).1 (t.save_result).2 =
      Except.ok ⟨removeSuffix (t.task_id ++ ".json") ".json", false, [], t.result⟩ := by
  simp only [Task.save_result, Task.load_from_record, TaskResult.to_dict, ofString?_value,
    mapM_ofRecord_to_dict, except_ok_bind]
  rfl

theorem mapM_ok_mem (f : α → Except String β) :
    ∀ (l : List α) (ys : List β), l.mapM f = Except.ok ys →
      ∀ x ∈ l, ∃ y, f x = Except.ok y := by
  intro l
  induction l with
  | nil =>
    intro ys _ x hx
    cases hx
  | cons a as ih =>
    intro ys h x hx
    rw [List.mapM_cons] at h
    cases hfa : f a with
    | error e =>
      rw [hfa, except_error_bind] at h
      cases h
    | ok y =>
      rw [hfa, except_ok_bind] at h
      cases hrest : as.mapM f with
      | error e =>
        rw [hrest, except_error_bind] at h
        cases h
      | ok ys' =>
        rcases List.mem_cons.mp hx with rfl | hxs
        · exact ⟨y, hfa⟩
        · exact ih ys' hrest x hxs

/-- A task built by `Task.init` whose discovered steps split as
`pre ++ s :: post`, where every body in `pre` succeeds and the body of
`s` raises `e`: `execute` returns normally; exactly `pre ++ [s]` get
invoked; the task ends `ERROR` with `exit_message = some e`; every step
in `post` still has its initial `PENDING` `StepResult`; every step in
`pre` ended `SUCCESS` holding its payload; and `s` ended `ERROR` with
message and payload untouched. -/
theorem execute_fail_of_init
    (ty uid c st en : String) (members : List Member)
    (bodies : String → Except String JValue)
    (pre post : List String) (s e : String)
    (hsteps : discoverSteps members = pre ++ s :: post)
    (hnd : (pre ++ s :: post).Nodup)
    (hpre : ∀ m ∈ pre, ∃ v, bodies m = Except.ok v)
    (hfail : bodies s = Except.error e) :
    ∃ t' rec trace,
      (Task.init ty members uid c).execute bodies st en = Except.ok (t', rec, trace) ∧
      trace = pre ++ [s] ∧
      rec = t'.result.to_dict ∧
      t'.result.status = STATUS.ERROR ∧
      t'.result.exit_message = some e ∧
      (∀ n ∈ post, dictGet t'.result.data n =
        some { message := "", status := STATUS.PENDING, data := JValue.obj [] }) ∧
      (∀ m ∈ pre, ∀ v, bodies m = Except.ok v →
        dictGet t'.result.data m =
          some { message := "", status := STATUS.SUCCESS, data := v }) ∧
      dictGet t'.result.data s =
        some { message := "", status := STATUS.ERROR, data := JValue.obj [] } := by
  obtain ⟨hndpre, hndtail, hdisj⟩ := List.nodup_append.mp hnd
  have hsnotpre : s ∉ pre := fun hmem => hdisj hmem (List.mem_cons_self s post)
  have hsnotpost : s ∉ post := (List.nodup_cons.mp hndtail).1
  have hne : (pre ++ s :: post).isEmpty = false := by cases pre <;> rfl
  obtain ⟨h1, h2, h3, h4, h5⟩ :=
    runSteps_fail_spec bodies s e hfail pre post
      ⟨uid, true, pre ++ s :: post,
       { task_type := some ty, status := STATUS.RUNNING, exit_message := none,
         data := (pre ++ s :: post).map (fun x => (x, ({} : StepResult))),
         created_at := c, start_at := some st, end_at := none, artifacts := [] }⟩
      hpre hsnotpre hndpre
  rcases hrx : runSteps bodies
      ⟨uid, true, pre ++ s :: post,
       { task_type := some ty, status := STATUS.RUNNING, exit_message := none,
         data := (pre ++ s :: post).map (fun x => (x, ({} : StepResult))),
         created_at := c, start_at := some st, end_at := none, artifacts := [] }⟩
      (pre ++ s :: post) with ⟨out1, oerr, otr⟩
  rw [hrx] at h1 h2 h3 h4 h5
  have hoerr : oerr = some e := h1
  have hotr : otr = pre ++ [s] := h2
  subst hoerr
  subst hotr
  have hexecEq := execute_err_eq uid (pre ++ s :: post)
      { task_type := some ty, status := STATUS.PENDING, exit_message := none,
        data := (pre ++ s :: post).map (fun x => (x, ({} : StepResult))),
        created_at := c, start_at := none, end_at := none, artifacts := [] }
      bodies st en out1 e (pre ++ [s]) hne hrx
  rw [init_eq, hsteps]
  refine ⟨_, _, _, hexecEq, rfl, rfl, rfl, rfl, ?_, ?_, ?_⟩
  · intro n hn
    have hnpre : n ∉ pre := fun hnp => hdisj hnp (List.mem_cons_of_mem s hn)
    have hns : n ≠ s := by
      rintro rfl
      exact hsnotpost hn
    have hmem : n ∈ pre ++ s :: post :=
      List.mem_append_right pre (List.mem_cons_of_mem s hn)
    show dictGet out1.result.data n =
      some { message := "", status := STATUS.PENDING, data := JValue.obj [] }
    rw [h3 n hnpre hns]
    exact dictGet_map_const (pre ++ s :: post) n ({} : StepResult) hmem
  · intro m hm v hv
    have hmmem : m ∈ pre ++ s :: post := List.mem_append_left _ hm
    show dictGet out1.result.data m =
      some { message := "", status := STATUS.SUCCESS, data := v }
    rw [h4 m hm v hv]
    have hD := dictGet_map_const (pre ++ s :: post) m ({} : StepResult) hmmem
    show (dictGet ((pre ++ s :: post).map (fun x => (x, ({} : StepResult)))) m).map
        (fun r => { r with status := STATUS.SUCCESS, data := v }) =
      some { message := "", status := STATUS.SUCCESS, data := v }
    rw [hD]
    rfl
  · have hsmem : s ∈ pre ++ s :: post :=
      List.mem_append_right pre (List.mem_cons_self s post)
    show dictGet out1.result.data s =
      some { message := "", status := STATUS.ERROR, data := JValue.obj [] }
    rw [h5]
    have hD := dictGet_map_const (pre ++ s :: post) s ({} : StepResult) hsmem
    show (dictGet ((pre ++ s :: post).map (fun x => (x, ({} : StepResult)))) s).map
        (fun r => { r with status := STATUS.ERROR }) =
      some { message := "", status := STATUS.ERROR, data := JValue.obj [] }
    rw [hD]
    rfl

/-! ## Claim theorems -/

/-- A concrete subclass body declaring `step_b` before `step_a`, plus an
inherited untagged method. -/
def c1Members : List Member :=
  [⟨"step_b", true⟩, ⟨"step_a", true⟩, ⟨"execute", false⟩]

def c1Bodies : String → Except String JValue :=
  fun _ => Except.ok JValue.null

/-- C1: the claim says step discovery and execution preserve declaration
order. The code builds `self.steps` from `dir(self)`, which sorts member
names alphabetically, so for a class declaring `step_b` before `step_a`
the discovered list — and the order in which `execute()` invokes the
bodies — is the alphabetical `["step_a", "step_b"]`, not the declaration
order `["step_b", "step_a"]`. This contradicts the class's own docstring
("the order they are defined in the class"). -/
theorem steps_follow_dir_order_not_declaration_order :
    (Task.init "CustomTask" c1Members "task-1" "t0").steps = ["step_a", "step_b"] ∧
    (c1Members.filter Member.is_step).map Member.name = ["step_b", "step_a"] ∧
    (Task.init "CustomTask" c1Members "task-1" "t0").steps ≠
      (c1Members.filter Member.is_step).map Member.name ∧
    Except.map (fun out => out.2.2)
        ((Task.init "CustomTask" c1Members "task-1" "t0").execute c1Bodies "s0" "e0") =
      Except.ok ["step_a", "step_b"] := by
  refine ⟨rfl, rfl, ?_, rfl⟩
  decide

/-- Three tagged steps, already in alphabetical order; `step_b` raises. -/
def c2Members : List Member :=
  [⟨"step_a", true⟩, ⟨"step_b", true⟩, ⟨"step_c", true⟩]

def c2Bodies : String → Except String JValue
  | "step_a" => Except.ok (JValue.str "payload-a")
  | "step_b" => Except.error "boom"
  | _ => Except.ok JValue.null

/-- C2: for a task whose discovered steps are `pre ++ s :: post` (so the
failing step `s` sits at position `k = pre.length`), when every step
before `s` succeeds and `s` raises `e`: after `execute()` returns, no
step of `post` was invoked (none appears in the invocation trace), each
keeps a `PENDING` `StepResult`, the task status is `ERROR` and
`exit_message` is the raised description `e`. -/
theorem step_failure_halts_later_steps
    (ty uid c st en : String) (members : List Member)
    (bodies : String → Except String JValue)
    (pre post : List String) (s e : String)
    (hsteps : discoverSteps members = pre ++ s :: post)
    (hnd : (pre ++ s :: post).Nodup)
    (hpre : ∀ m ∈ pre, ∃ v, bodies m = Except.ok v)
    (hfail : bodies s = Except.error e) :
    ∃ t' rec trace,
      (Task.init ty members uid c).execute bodies st en = Except.ok (t', rec, trace) ∧
      t'.result.status = STATUS.ERROR ∧
      t'.result.exit_message = some e ∧
      ∀ n ∈ post, n ∉ trace ∧
        dictGet t'.result.data n =
          some { message := "", status := STATUS.PENDING, data := JValue.obj [] } := by
  obtain ⟨t', rec, trace, hexec, htr, _, hst, hmsg, hpost, _, _⟩ :=
    execute_fail_of_init ty uid c st en members bodies pre post s e hsteps hnd hpre hfail
  refine ⟨t', rec, trace, hexec, hst, hmsg, ?_⟩
  intro n hn
  obtain ⟨hndpre, hndtail, hdisj⟩ := List.nodup_append.mp hnd
  have hnpre : n ∉ pre := fun hnp => hdisj hnp (List.mem_cons_of_mem s hn)
  have hns : n ≠ s := by
    rintro rfl
    exact (List.nodup_cons.mp hndtail).1 hn
  refine ⟨?_, hpost n hn⟩
  rw [htr]
  intro hmem
  rcases List.mem_append.mp hmem with hmem1 | hmem2
  · exact hnpre hmem1
  · exact hns (List.mem_singleton.mp hmem2)

theorem step_failure_halts_later_steps_witness :
    ∃ t' rec trace,
      (Task.init "T" c2Members "task-9" "c0").execute c2Bodies "s0" "e0" =
        Except.ok (t', rec, trace) ∧
      t'.result.status = STATUS.ERROR ∧
      t'.result.exit_message = some "boom" ∧
      ∀ n ∈ ["step_c"], n ∉ trace ∧
        dictGet t'.result.data n =
          some { message := "", status := STATUS.PENDING, data := JValue.obj [] } :=
  step_failure_halts_later_steps "T" "task-9" "c0" "s0" "e0" c2Members c2Bodies
    ["step_a"] ["step_c"] "step_b" "boom" rfl (by decide)
    (by
      intro m hm
      rw [List.mem_singleton] at hm
      subst hm
      exact ⟨JValue.str "payload-a", rfl⟩)
    rfl

/-- C3: an executable task with zero discovered steps ends `ERROR` with
`exit_code` 1 and `exit_message = "No steps to execute"`. -/
theorem no_steps_execute_error
    (ty uid c st en : String) (members : List Member)
    (bodies : String → Except String JValue)
    (hsteps : discoverSteps members = []) :
    ∃ t' rec trace,
      (Task.init ty members uid c).execute bodies st en = Except.ok (t', rec, trace) ∧
      t'.result.status = STATUS.ERROR ∧
      t'.result.exit_code = 1 ∧
      rec.exit_code = 1 ∧
      t'.result.exit_message = some "No steps to execute" := by
  rw [init_eq, hsteps]
  exact ⟨_, _, _, execute_empty_eq uid _ bodies st en, rfl, rfl, rfl, rfl⟩

theorem no_steps_execute_error_witness :
    ∃ t' rec trace,
      (Task.init "E" [⟨"helper", false⟩] "task-0" "c0").execute
          (fun _ => Except.ok JValue.null) "s0" "e0" = Except.ok (t', rec, trace) ∧
      t'.result.status = STATUS.ERROR ∧
      t'.result.exit_code = 1 ∧
      rec.exit_code = 1 ∧
      t'.result.exit_message = some "No steps to execute" :=
  no_steps_execute_error "E" "task-0" "c0" "s0" "e0" [⟨"helper", false⟩]
    (fun _ => Except.ok JValue.null) rfl

/-- C4: the derived `exit_code` is 1 exactly when `data` is empty or
every step's status is `ERROR`, and 0 otherwise. -/
theorem exit_code_spec (r : TaskResult) :
    (r.exit_code = 1 ↔ (r.data = [] ∨ ∀ p ∈ r.data, p.2.status = STATUS.ERROR)) ∧
    (¬(r.data = [] ∨ ∀ p ∈ r.data, p.2.status = STATUS.ERROR) → r.exit_code = 0) := by
  simp only [TaskResult.exit_code]
  split_ifs with h0 hall
  · have hP : r.data = [] ∨ ∀ p ∈ r.data, p.2.status = STATUS.ERROR :=
      Or.inl (List.length_eq_zero.mp h0)
    exact ⟨iff_of_true rfl hP, fun hnp => absurd hP hnp⟩
  · have hP : r.data = [] ∨ ∀ p ∈ r.data, p.2.status = STATUS.ERROR := by
      right
      intro p hp
      exact decide_eq_true_eq.mp (List.all_eq_true.mp hall p hp)
    exact ⟨iff_of_true rfl hP, fun hnp => absurd hP hnp⟩
  · have hnP : ¬(r.data = [] ∨ ∀ p ∈ r.data, p.2.status = STATUS.ERROR) := by
      rintro (hnil | hforall)
      · exact h0 (by simp [hnil])
      · apply hall
        rw [List.all_eq_true]
        intro p hp
        exact decide_eq_true (hforall p hp)
    exact ⟨iff_of_false (by decide) hnP, fun _ => rfl⟩

theorem exit_code_spec_witness :
    ({ created_at := "c4", data := [("s1", { status := STATUS.SUCCESS })] } :
      TaskResult).exit_code = 0 :=
  (exit_code_spec _).2
    (by
      rintro (hnil | hall)
      · cases hnil
      · have := hall ("s1", { status := STATUS.SUCCESS }) (List.mem_cons_self _ _)
        exact absurd this (by decide))

/-- A persisted record that is valid JSON but fails reconstruction: its
status string is not a member of the status enum. -/
def c5BadRecord : TaskRecord :=
  { task_type := some "MyTask", status := "UNKNOWN", exit_code := 0, exit_message := none,
    data := [], created_at := "2021-01-01T00:00:00", start_at := none, end_at := none,
    artifacts := [] }

/-- A well-formed persisted record. -/
def c5GoodRecord : TaskRecord :=
  { task_type := some "MyTask", status := "SUCCESS", exit_code := 0, exit_message := none,
    data := [], created_at := "2021-01-01T00:00:00", start_at := none, end_at := none,
    artifacts := [] }

def c5Files : List (String × FileContent) :=
  [("task-bad.json", FileContent.record c5BadRecord),
   ("task-good.json", FileContent.record c5GoodRecord)]

/-- C5 counterexample: the claim says a record whose reconstruction fails
for any reason is skipped and the scan continues. But `load_from_disk`
catches only `JSONDecodeError`: on a result directory holding a
valid-JSON record with status "UNKNOWN" followed by a well-formed record,
the scan raises `ValueError` and never completes — the well-formed entry
is not registered either. -/
theorem load_from_disk_abort_counterexample :
    TaskManager.load_from_disk c5Files [] =
      Except.error (LoadError.valueError ("UNKNOWN" ++ " is not a valid STATUS")) ∧
    ∀ reg, TaskManager.load_from_disk c5Files [] ≠ Except.ok reg := by
  refine ⟨rfl, fun reg h => ?_⟩
  rw [show TaskManager.load_from_disk c5Files [] =
      Except.error (LoadError.valueError ("UNKNOWN" ++ " is not a valid STATUS")) from rfl] at h
  exact Except.noConfusion h

/-- C5 amended: during `load_from_disk`, an entry whose JSON parsing
fails (`JSONDecodeError`) is logged and skipped and the scan continues;
but an entry that parses as JSON and then fails reconstruction (any
`ValueError`, e.g. an unknown status value) propagates and aborts the
scan of the remaining entries. -/
theorem load_from_disk_skip_and_abort
    (fileName : String) (rec : TaskRecord) (rest : List (String × FileContent))
    (tasks : List (String × Task)) (msg : String)
    (hbad : Task.load_from_record fileName rec = Except.error msg) :
    TaskManager.load_from_disk ((fileName, FileContent.invalidJson) :: rest) tasks =
      TaskManager.load_from_disk rest tasks ∧
    TaskManager.load_from_disk ((fileName, FileContent.record rec) :: rest) tasks =
      Except.error (LoadError.valueError msg) := by
  refine ⟨rfl, ?_⟩
  simp [TaskManager.load_from_disk, Task.load_from_file, hbad]

theorem load_from_disk_skip_and_abort_witness :
    TaskManager.load_from_disk [("task-x.json", FileContent.invalidJson)] [] =
      Except.ok [] ∧
    TaskManager.load_from_disk [("task-bad.json", FileContent.record c5BadRecord)] [] =
      Except.error (LoadError.valueError ("UNKNOWN" ++ " is not a valid STATUS")) := by
  have h := load_from_disk_skip_and_abort "task-bad.json" c5BadRecord [] []
    ("UNKNOWN" ++ " is not a valid STATUS") rfl
  exact ⟨h.1, h.2⟩

/-- C6: a `TaskResult` serialized by `save_result` and reloaded through
`load_from_file` yields a non-executable task whose status, timestamps,
exit message, artifacts and per-step results (message, status, payload)
are identical to the original. -/
theorem save_load_round_trip (t : Task) :
    ∃ t', Task.load_from_file (t.save_result).1
        (FileContent.record (t.save_result).2) = Except.ok t' ∧
      t'.is_executable = false ∧
      t'.result.status = t.result.status ∧
      t'.result.created_at = t.result.created_at ∧
      t'.result.start_at = t.result.start_at ∧
      t'.result.end_at = t.result.end_at ∧
      t'.result.exit_message = t.result.exit_message ∧
      t'.result.artifacts = t.result.artifacts ∧
      t'.result.data = t.result.data := by
  refine ⟨⟨removeSuffix (t.task_id ++ ".json") ".json", false, [], t.result⟩,
    ?_, rfl, rfl, rfl, rfl, rfl, rfl, rfl, rfl⟩
  have h := load_save t
  simp only [Task.load_from_file, Task.save_result] at h ⊢
  rw [h]

theorem save_load_round_trip_witness :
    ∃ t', Task.load_from_file
        ((⟨"task-6", true, [], { created_at := "c6" }⟩ : Task).save_result).1
        (FileContent.record
          ((⟨"task-6", true, [], { created_at := "c6" }⟩ : Task).save_result).2) =
        Except.ok t' ∧
      t'.is_executable = false ∧
      t'.result.status = ({ created_at := "c6" } : TaskResult).status ∧
      t'.result.created_at = ({ created_at := "c6" } : TaskResult).created_at ∧
      t'.result.start_at = ({ created_at := "c6" } : TaskResult).start_at ∧
      t'.result.end_at = ({ created_at := "c6" } : TaskResult).end_at ∧
      t'.result.exit_message = ({ created_at := "c6" } : TaskResult).exit_message ∧
      t'.result.artifacts = ({ created_at := "c6" } : TaskResult).artifacts ∧
      t'.result.data = ({ created_at := "c6" } : TaskResult).data :=
  save_load_round_trip ⟨"task-6", true, [], { created_at := "c6" }⟩

/-- C7: `add_artifact` on a source path that does not exist raises a
not-found error and leaves the task — in particular its `artifacts`
mapping — exactly as it was. -/
theorem add_artifact_missing_source
    (t : Task) (fs : List String) (path artifact_path : String)
    (h : path ∉ fs) :
    (t.add_artifact fs path artifact_path).2.1 =
      Except.error ("No such file or directory: " ++ path) ∧
    (t.add_artifact fs path artifact_path).1 = t ∧
    (t.add_artifact fs path artifact_path).1.result.artifacts = t.result.artifacts := by
  simp [Task.add_artifact, h]

theorem add_artifact_missing_source_witness :
    ((⟨"task-7", true, [], { created_at := "c7" }⟩ : Task).add_artifact
        ["present.txt"] "missing.txt" "artifacts/").2.1 =
      Except.error ("No such file or directory: " ++ "missing.txt") ∧
    ((⟨"task-7", true, [], { created_at := "c7" }⟩ : Task).add_artifact
        ["present.txt"] "missing.txt" "artifacts/").1.result.artifacts =
      ({ created_at := "c7" } : TaskResult).artifacts := by
  have h := add_artifact_missing_source ⟨"task-7", true, [], { created_at := "c7" }⟩
    ["present.txt"] "missing.txt" "artifacts/" (by decide)
  exact ⟨h.1, h.2.2⟩

/-- C8: `get_task_status` raises a not-found error for an identity
absent from the registry; for a registered identity it returns the
result snapshot, with `logs` holding the lines of
`<logs_dir>/<identity>.log` when that file exists, and `[]` when no logs
directory is given or the file is absent. -/
theorem get_task_status_spec (tasks : List (String × Task))
    (logFiles : List (String × List String)) (task_id : String) (dir : String) :
    (dictGet tasks task_id = none →
      ∀ lf, TaskManager.get_task_status tasks logFiles task_id lf =
        Except.error ("Task " ++ task_id ++ " not found")) ∧
    (∀ task, dictGet tasks task_id = some task →
      (∀ lines, dictGet logFiles (joinPath dir (task_id ++ ".log")) = some lines →
        TaskManager.get_task_status tasks logFiles task_id (some dir) =
          Except.ok { record := task.result.to_dict, logs := lines }) ∧
      (dictGet logFiles (joinPath dir (task_id ++ ".log")) = none →
        TaskManager.get_task_status tasks logFiles task_id (some dir) =
          Except.ok { record := task.result.to_dict, logs := [] }) ∧
      TaskManager.get_task_status tasks logFiles task_id none =
        Except.ok { record := task.result.to_dict, logs := [] }) := by
  constructor
  · intro hnone lf
    cases lf <;> simp [TaskManager.get_task_status, hnone]
  · intro task htask
    refine ⟨?_, ?_, ?_⟩
    · intro lines hlines
      simp [TaskManager.get_task_status, htask, hlines]
    · intro hnolog
      simp [TaskManager.get_task_status, htask, hnolog]
    · simp [TaskManager.get_task_status, htask]

def c8Task : Task := ⟨"task-8", true, [], { created_at := "c8" }⟩

theorem get_task_status_spec_witness :
    TaskManager.get_task_status [] [] "task-404" none =
      Except.error ("Task " ++ "task-404" ++ " not found") ∧
    TaskManager.get_task_status [("task-8", c8Task)]
        [("logs/task-8.log", ["line one\n", "line two"])] "task-8" (some "logs") =
      Except.ok { record := c8Task.result.to_dict, logs := ["line one\n", "line two"] } ∧
    TaskManager.get_task_status [("task-8", c8Task)]
        [("logs/task-8.log", ["line one\n", "line two"])] "task-8" none =
      Except.ok { record := c8Task.result.to_dict, logs := [] } := by
  refine ⟨(get_task_status_spec [] [] "task-404" "x").1 rfl none, ?_, ?_⟩
  · exact ((get_task_status_spec [("task-8", c8Task)]
      [("logs/task-8.log", ["line one\n", "line two"])] "task-8" "logs").2
      c8Task rfl).1 ["line one\n", "line two"] rfl
  · exact ((get_task_status_spec [("task-8", c8Task)]
      [("logs/task-8.log", ["line one\n", "line two"])] "task-8" "logs").2
      c8Task rfl).2.2

/-- C9: when a step body raises, only the failing step's status changes
(to `ERROR`): its `message` and `data` keep their pre-run values (the
dataclass defaults `""` and the empty mapping), while every earlier step
keeps its `SUCCESS` status and stored payload. -/
theorem step_failure_frame_effect
    (ty uid c st en : String) (members : List Member)
    (bodies : String → Except String JValue)
    (pre post : List String) (s e : String)
    (hsteps : discoverSteps members = pre ++ s :: post)
    (hnd : (pre ++ s :: post).Nodup)
    (hpre : ∀ m ∈ pre, ∃ v, bodies m = Except.ok v)
    (hfail : bodies s = Except.error e) :
    ∃ t' rec trace,
      (Task.init ty members uid c).execute bodies st en = Except.ok (t', rec, trace) ∧
      dictGet t'.result.data s =
        some { message := "", status := STATUS.ERROR, data := JValue.obj [] } ∧
      ∀ m ∈ pre, ∀ v, bodies m = Except.ok v →
        dictGet t'.result.data m =
          some { message := "", status := STATUS.SUCCESS, data := v } := by
  obtain ⟨t', rec, trace, hexec, _, _, _, _, _, hpre', hself⟩ :=
    execute_fail_of_init ty uid c st en members bodies pre post s e hsteps hnd hpre hfail
  exact ⟨t', rec, trace, hexec, hself, hpre'⟩

theorem step_failure_frame_effect_witness :
    ∃ t' rec trace,
      (Task.init "F" c2Members "task-5" "c0").execute c2Bodies "s0" "e0" =
        Except.ok (t', rec, trace) ∧
      dictGet t'.result.data "step_b" =
        some { message := "", status := STATUS.ERROR, data := JValue.obj [] } ∧
      ∀ m ∈ ["step_a"], ∀ v, c2Bodies m = Except.ok v →
        dictGet t'.result.data m =
          some { message := "", status := STATUS.SUCCESS, data := v } :=
  step_failure_frame_effect "F" "task-5" "c0" "s0" "e0" c2Members c2Bodies
    ["step_a"] ["step_c"] "step_b" "boom" rfl (by decide)
    (by
      intro m hm
      rw [List.mem_singleton] at hm
      subst hm
      exact ⟨JValue.str "payload-a", rfl⟩)
    rfl

def statusStrings : List String := ["PENDING", "RUNNING", "SUCCESS", "ERROR"]

theorem ofString?_eq_some (x : String) (st : STATUS) (h : STATUS.ofString? x = some st) :
    x = st.value := by
  unfold STATUS.ofString? at h
  split at h <;> cases h <;> simp_all [STATUS.value]

theorem ofString?_eq_none (x : String) (hx : x ∉ statusStrings) :
    STATUS.ofString? x = none := by
  cases h : STATUS.ofString? x with
  | none => rfl
  | some st =>
    exfalso
    apply hx
    rw [ofString?_eq_some x st h]
    cases st <;> decide

/-- C10: constructing a `StepResult` from a status string coerces it to
the four-value enum; a status string outside {PENDING, RUNNING, SUCCESS,
ERROR} makes the construction — and therefore `load_from_file` on a
record containing such a step — raise instead of storing the unknown
value. -/
theorem step_status_closed (r : StepRecord) :
    ((∃ sr, StepResult.ofRecord r = Except.ok sr ∧ sr.message = r.message ∧
        sr.data = r.data ∧ sr.status.value = r.status) ↔ r.status ∈ statusStrings) ∧
    (r.status ∉ statusStrings →
      StepResult.ofRecord r = Except.error (r.status ++ " is not a valid STATUS") ∧
      ∀ fileName trec name, (name, r) ∈ trec.data →
        ∃ msg, Task.load_from_record fileName trec = Except.error msg) := by
  constructor
  · constructor
    · rintro ⟨sr, _, _, _, hval⟩
      rw [← hval]
      cases sr.status <;> decide
    · intro hmem
      have hsome : ∃ st, STATUS.ofString? r.status = some st ∧ st.value = r.status := by
        simp only [statusStrings, List.mem_cons, List.not_mem_nil, or_false] at hmem
        rcases hmem with h | h | h | h <;> rw [h] <;> exact ⟨_, rfl, rfl⟩
      obtain ⟨st, hst, hval⟩ := hsome
      exact ⟨{ message := r.message, status := st, data := r.data },
        by simp [StepResult.ofRecord, hst], rfl, rfl, hval⟩
  · intro hnot
    have hnone := ofString?_eq_none r.status hnot
    constructor
    · simp [StepResult.ofRecord, hnone]
    · intro fileName trec name hmem
      cases hload : Task.load_from_record fileName trec with
      | error msg => exact ⟨msg, rfl⟩
      | ok t' =>
        exfalso
        simp only [Task.load_from_record] at hload
        cases hst : STATUS.ofString? trec.status with
        | none =>
          rw [hst] at hload
          simp only [except_error_bind] at hload
          exact Except.noConfusion hload
        | some st =>
          rw [hst] at hload
          simp only [except_ok_bind] at hload
          cases hmapM : trec.data.mapM (fun p => do
              let sr ← StepResult.ofRecord p.2
              pure (p.1, sr)) with
          | error m =>
            rw [hmapM] at hload
            simp only [except_error_bind] at hload
            exact Except.noConfusion hload
          | ok ys =>
            obtain ⟨y, hy⟩ := mapM_ok_mem _ trec.data ys hmapM (name, r) hmem
            rw [show StepResult.ofRecord r =
                Except.error (r.status ++ " is not a valid STATUS") from
              by simp [StepResult.ofRecord, hnone]] at hy
            simp only [except_error_bind] at hy
            exact Except.noConfusion hy

def c10BadStep : StepRecord := { message := "m", status := "BOGUS", data := JValue.null }

def c10Record : TaskRecord :=
  { task_type := some "T", status := "SUCCESS", exit_code := 0, exit_message := none,
    data := [("s1", c10BadStep)], created_at := "c", start_at := none, end_at := none,
    artifacts := [] }

theorem step_status_closed_witness :
    StepResult.ofRecord c10BadStep =
      Except.error ("BOGUS" ++ " is not a valid STATUS") ∧
    ∃ msg, Task.load_from_record "task-z.json" c10Record = Except.error msg := by
  have h := (step_status_closed c10BadStep).2 (by decide)
  exact ⟨h.1, h.2 "task-z.json" c10Record "s1" (List.mem_cons_self _ _)⟩

end TaskFlow
